import Mathlib

/-!
Verification development for the external-AI chat bridge
(`src/extension.ts`, function `streamAIResponse` and its helpers).

JavaScript strings are embedded as `List Char`; the string operations the
source uses (`split('\n')`, `trim()`, `startsWith`, `slice(6)`, `JSON.parse`,
optional chaining `choices?.[0]?.delta?.content`, truthiness tests) are given
as executable Lean functions mirroring their JS semantics on this data.
-/

/-- A parsed JSON value, as produced by `JSON.parse`.  The numeric value is
abstracted to an integer that is zero exactly when the JSON number is zero;
the decoder only ever inspects the truthiness of extracted values, for which
zero-ness is the only relevant property of a number. -/
inductive Json where
  | null
  | bool (b : Bool)
  | num (n : Int)
  | str (s : List Char)
  | arr (elems : List Json)
  | obj (fields : List (List Char × Json))
deriving Repr

/-- The four JSON / JS whitespace characters relevant to the inputs handled
here (space, tab, carriage return, line feed). -/
def isWsChar (c : Char) : Bool :=
  c = ' ' || c = '\t' || c = '\r' || c = '\n'

/-- Drop leading whitespace (JSON inter-token whitespace). -/
def skipWs (cs : List Char) : List Char :=
  cs.dropWhile isWsChar

/-- JS `string.split('\n')`: splits on every newline, keeping empty segments;
an empty string yields one empty segment. -/
def splitNl : List Char → List (List Char)
  | [] => [[]]
  | c :: cs =>
    if c = '\n' then [] :: splitNl cs
    else
      match splitNl cs with
      | l :: ls => (c :: l) :: ls
      | [] => [[c]]

/-- JS `string.trim()`: remove leading and trailing whitespace. -/
def trimChars (l : List Char) : List Char :=
  ((l.dropWhile isWsChar).reverse.dropWhile isWsChar).reverse

/-- JS `string.startsWith(pat)`: `startsWithChars pat s` is true when `pat`
occurs at the start of `s`. -/
def startsWithChars : List Char → List Char → Bool
  | [], _ => true
  | _ :: _, [] => false
  | p :: ps, c :: cs => p = c && startsWithChars ps cs

/-- Value of a hexadecimal digit, if the character is one. -/
def hexDigitVal (c : Char) : Option Nat :=
  if '0' ≤ c ∧ c ≤ '9' then some (c.toNat - ('0').toNat)
  else if 'a' ≤ c ∧ c ≤ 'f' then some (c.toNat - ('a').toNat + 10)
  else if 'A' ≤ c ∧ c ≤ 'F' then some (c.toNat - ('A').toNat + 10)
  else none

/-- JSON single-character string escapes. -/
def escMap (e : Char) : Option Char :=
  if e = '"' then some '"'
  else if e = '\\' then some '\\'
  else if e = '/' then some '/'
  else if e = 'b' then some (Char.ofNat 8)
  else if e = 'f' then some (Char.ofNat 12)
  else if e = 'n' then some '\n'
  else if e = 'r' then some '\r'
  else if e = 't' then some '\t'
  else none

/-- Parse the body of a JSON string after the opening quote, returning the
decoded characters and the input remaining after the closing quote.
`fuel` bounds the recursion; any value at least the input length suffices. -/
def parseStringBody : Nat → List Char → Option (List Char × List Char)
  | 0, _ => none
  | _ + 1, [] => none
  | fuel + 1, c :: cs =>
    if c = '"' then some ([], cs)
    else if c = '\\' then
      match cs with
      | [] => none
      | e :: cs' =>
        if e = 'u' then
          match cs' with
          | h1 :: h2 :: h3 :: h4 :: cs'' =>
            match hexDigitVal h1, hexDigitVal h2, hexDigitVal h3, hexDigitVal h4 with
            | some a, some b, some c3, some d =>
              (parseStringBody fuel cs'').map
                fun r => (Char.ofNat (((a * 16 + b) * 16 + c3) * 16 + d) :: r.1, r.2)
            | _, _, _, _ => none
          | _ => none
        else
          match escMap e with
          | some ec => (parseStringBody fuel cs').map fun r => (ec :: r.1, r.2)
          | none => none
    else (parseStringBody fuel cs).map fun r => (c :: r.1, r.2)

/-- Numeric value of a digit string. -/
def digitsToNat (ds : List Char) : Nat :=
  ds.foldl (fun acc c => acc * 10 + (c.toNat - ('0').toNat)) 0

/-- Parse the optional fraction part of a JSON number, returning its digits
and the rest of the input; a bare dot without digits is malformed. -/
def parseFracPart (cs : List Char) : Option (List Char × List Char) :=
  match cs with
  | '.' :: r =>
    let f := r.takeWhile Char.isDigit
    if f = [] then none else some (f, r.dropWhile Char.isDigit)
  | _ => some ([], cs)

/-- Parse the optional exponent part of a JSON number, returning the rest of
the input; the exponent never affects whether the number is zero. -/
def parseExpPart (cs : List Char) : Option (List Char) :=
  match cs with
  | c :: r =>
    if c = 'e' ∨ c = 'E' then
      let r2 := match r with
        | s :: r' => if s = '+' ∨ s = '-' then r' else r
        | [] => r
      let d := r2.takeWhile Char.isDigit
      if d = [] then none else some (r2.dropWhile Char.isDigit)
    else some cs
  | [] => some []

/-- Parse a JSON number (leading-zero rule included); the value is kept only
up to zero-ness, see `Json.num`. -/
def parseNumber (cs : List Char) : Option (Json × List Char) :=
  let signed : Bool × List Char :=
    match cs with
    | '-' :: r => (true, r)
    | _ => (false, cs)
  let ints := signed.2.takeWhile Char.isDigit
  let cs2 := signed.2.dropWhile Char.isDigit
  if ints = [] then none
  else if 1 < ints.length ∧ ints.headI = '0' then none
  else
    match parseFracPart cs2 with
    | none => none
    | some (fracs, cs3) =>
      match parseExpPart cs3 with
      | none => none
      | some cs4 =>
        let mag : Int := Int.ofNat (digitsToNat (ints ++ fracs))
        some (.num (if signed.1 then -mag else mag), cs4)

/-- Parsing mode: a top-level value, the elements of an array after `[`, or
the members of an object after `{` (with the elements parsed so far). -/
inductive PMode where
  | value
  | elems (acc : List Json)
  | members (acc : List (List Char × Json))

/-- Recursive-descent JSON value parser; `fuel` bounds the recursion depth
and is structurally decreasing, so the definition unfolds by reduction. -/
def parseV : Nat → PMode → List Char → Option (Json × List Char)
  | 0, _, _ => none
  | fuel + 1, .value, cs =>
    match skipWs cs with
    | [] => none
    | 'n' :: 'u' :: 'l' :: 'l' :: r => some (.null, r)
    | 't' :: 'r' :: 'u' :: 'e' :: r => some (.bool true, r)
    | 'f' :: 'a' :: 'l' :: 's' :: 'e' :: r => some (.bool false, r)
    | '"' :: r => (parseStringBody (r.length + 1) r).map fun p => (.str p.1, p.2)
    | '[' :: r =>
      match skipWs r with
      | ']' :: r' => some (.arr [], r')
      | _ => parseV fuel (.elems []) r
    | '{' :: r =>
      match skipWs r with
      | '}' :: r' => some (.obj [], r')
      | _ => parseV fuel (.members []) r
    | c :: r => if c = '-' ∨ c.isDigit then parseNumber (c :: r) else none
  | fuel + 1, .elems acc, cs =>
    match parseV fuel .value cs with
    | none => none
    | some (v, rest) =>
      match skipWs rest with
      | ',' :: r2 => parseV fuel (.elems (acc ++ [v])) r2
      | ']' :: r2 => some (.arr (acc ++ [v]), r2)
      | _ => none
  | fuel + 1, .members acc, cs =>
    match skipWs cs with
    | '"' :: r =>
      match parseStringBody (r.length + 1) r with
      | none => none
      | some (k, r1) =>
        match skipWs r1 with
        | ':' :: r2 =>
          match parseV fuel .value r2 with
          | none => none
          | some (v, r3) =>
            match skipWs r3 with
            | ',' :: r4 => parseV fuel (.members (acc ++ [(k, v)])) r4
            | '}' :: r4 => some (.obj (acc ++ [(k, v)]), r4)
            | _ => none
        | _ => none
    | _ => none

/-- JS `JSON.parse`: parse a complete JSON document; trailing non-whitespace
input is an error (`none` models a thrown `SyntaxError`). -/
def parseJson (s : List Char) : Option Json :=
  match parseV (3 * s.length + 3) .value s with
  | some (j, rest) => if skipWs rest = [] then some j else none
  | none => none

/-- JS property access `obj[k]` on a parsed JSON value: defined on objects
(`JSON.parse` keeps the last of duplicate keys), undefined (`none`) on
everything else.  (A string or number receiver also gives `undefined` for
these field names; a `null` receiver throws, which the source catches in the
same handler that skips the frame — observably identical to `none` here.) -/
def getField (j : Json) (k : List Char) : Option Json :=
  match j with
  | .obj fs => (fs.reverse.find? fun p => p.1 = k).map fun p => p.2
  | _ => none

/-- JS index access `a[i]` on a parsed JSON value: defined on arrays,
undefined (`none`) on everything else relevant here. -/
def getIndex (j : Json) (i : Nat) : Option Json :=
  match j with
  | .arr xs => xs.get? i
  | _ => none

/-- The source's `parsed.choices?.[0]?.delta?.content`: optional chaining,
`none` models `undefined`. -/
def getContent (parsed : Json) : Option Json :=
  match getField parsed (("choices").toList) with
  | none => none
  | some ch =>
    match getIndex ch 0 with
    | none => none
    | some c0 =>
      match getField c0 (("delta").toList) with
      | none => none
      | some d => getField d (("content").toList)

/-- JS truthiness of a parsed JSON value (`if (content)` in the source):
`null`, `false`, `0` and the empty string are falsy. -/
def jsTruthy : Json → Bool
  | .null => false
  | .bool b => b
  | .num n => n ≠ 0
  | .str s => ¬s.isEmpty
  | .arr _ => true
  | .obj _ => true

/-- What the body of the source's `for (const line of lines)` loop does with
one line: yield a content increment, skip the line, or stop the stream
(the `return` taken on the `[DONE]` sentinel). -/
inductive LineAction where
  | yield (c : Json)
  | skip
  | stop

/-- One iteration of the source's per-line loop:
`if (line.startsWith('data: '))`, `const data = line.slice(6)`,
the `[DONE]` test, `JSON.parse` in a `try`, extraction, and the
truthiness-guarded `stream.markdown(content)`. -/
def lineStep (line : List Char) : LineAction :=
  if startsWithChars (("data: ").toList) line then
    let data := line.drop 6
    if data = ("[DONE]").toList then .stop
    else
      match parseJson data with
      | some parsed =>
        match getContent parsed with
        | some content => if jsTruthy content then .yield content else .skip
        | none => .skip
      | none => .skip
  else .skip

/-- The source's `chunk.split('\n').filter(line => line.trim())`:
the candidate lines of one chunk, with whitespace-only lines removed
(the filter tests truthiness of the trimmed line but keeps the line
itself untrimmed). -/
def linesOf (chunk : List Char) : List (List Char) :=
  (splitNl chunk).filter fun l => !(trimChars l).isEmpty

/-- The source's `for (const line of lines)` loop over the candidate lines of
one chunk: the increments pushed to the sink in order, and whether the
`[DONE]` sentinel was hit (which returns from the whole function, so nothing
after it is processed). -/
def processLines : List (List Char) → List Json × Bool
  | [] => ([], false)
  | l :: ls =>
    match lineStep l with
    | .stop => ([], true)
    | .yield c =>
      let r := processLines ls
      (c :: r.1, r.2)
    | .skip => processLines ls

/-- How the response body ends after its chunks: the peer closes it
(`reader.read()` reports `done`), or a transport I/O failure surfaces
(`reader.read()` rejects with an error carrying a message). -/
inductive EndKind where
  | closed
  | ioError (msg : List Char)

/-- Terminal condition of one call, as distinguished by the source:
`[DONE]` seen, body exhausted, cancellation observed, non-success status,
missing body stream, or a mid-stream read failure. -/
inductive Outcome where
  | sentinel
  | exhausted
  | cancelled
  | connError (status : Nat) (statusText : List Char)
  | noStream
  | readError (msg : List Char)

/-- The cancellation token: `cancelAt = some n` means
`token.isCancellationRequested` reads false at the first `n` checks and true
from the `n`-th check on (the token is monotone); `none` means it is never
signaled.  `i` is the index of the check being made. -/
def isCancelled (cancelAt : Option Nat) (i : Nat) : Bool :=
  match cancelAt with
  | none => false
  | some n => n ≤ i

/-- The source's `while (!token.isCancellationRequested)` read loop:
check cancellation, await the next chunk (`done` breaks; a rejection
propagates as an error), decode the chunk's lines, return on the sentinel,
otherwise continue with the next chunk. -/
def readLoop (cancelAt : Option Nat) (i : Nat) (cs : List (List Char))
    (e : EndKind) : List Json × Outcome :=
  if isCancelled cancelAt i then ([], .cancelled)
  else
    match cs with
    | [] =>
      match e with
      | .closed => ([], .exhausted)
      | .ioError m => ([], .readError m)
    | c :: rest =>
      let r := processLines (linesOf c)
      if r.2 then (r.1, .sentinel)
      else
        let next := readLoop cancelAt (i + 1) rest e
        (r.1 ++ next.1, next.2)

/-- The response body as seen through `response.body.getReader()`: the chunks
delivered in order, then how the body ends. -/
structure ChunkSource where
  chunks : List (List Char)
  endKind : EndKind

/-- The `fetch` response as the source inspects it: status (from which
`response.ok` is derived), status text, and the optional body stream. -/
structure HttpResponse where
  status : Nat
  statusText : List Char
  body : Option ChunkSource

/-- JS `response.ok`: status in the 200–299 range. -/
def respOk (status : Nat) : Bool :=
  decide (200 ≤ status) && decide (status < 300)

/-- The observable behavior of the source's `streamAIResponse` from the
`fetch` response on: the ordered content increments pushed to the sink and
the terminal condition.  The status check (`if (!response.ok) throw`) runs
before the body is touched; a missing body throws; otherwise the read loop
runs. -/
def streamAIResponse (resp : HttpResponse) (cancelAt : Option Nat) :
    List Json × Outcome :=
  if ¬respOk resp.status then ([], .connError resp.status resp.statusText)
  else
    match resp.body with
    | none => ([], .noStream)
    | some src => readLoop cancelAt 0 src.chunks src.endKind

/-- The error notice the source's outer `catch` renders to the sink
(`stream.markdown('Failed to get response from AI service: ...')`): present
exactly for the failure outcomes, absent for the clean ones (sentinel,
exhaustion, cancellation). -/
def renderedFailure : Outcome → Option (List Char)
  | .connError status statusText =>
    some ((("Failed to get response from AI service: AI service returned ").toList)
      ++ (toString status).toList ++ ((": ").toList) ++ statusText)
  | .noStream =>
    some (("Failed to get response from AI service: No response stream available").toList)
  | .readError m =>
    some ((("Failed to get response from AI service: ").toList) ++ m)
  | .sentinel => none
  | .exhausted => none
  | .cancelled => none

/-- Modelled from the spec: the frame-filtering step as the spec words it —
each candidate frame is first trimmed of incidental whitespace, frames empty
after trimming are skipped, and the prefix test, sentinel test and payload
extraction then operate on the trimmed frame.  Stated only for comparison
with `lineStep`, which is the source's behavior. -/
def lineStepTrimFirst (line : List Char) : LineAction :=
  let t := trimChars line
  if t.isEmpty then .skip
  else if startsWithChars (("data: ").toList) t then
    let data := t.drop 6
    if data = ("[DONE]").toList then .stop
    else
      match parseJson data with
      | some parsed =>
        match getContent parsed with
        | some content => if jsTruthy content then .yield content else .skip
        | none => .skip
      | none => .skip
  else .skip

/-- Modelled from the spec: the per-frame loop using the trim-first frame
handling of `lineStepTrimFirst`; comparison point for `processLines`. -/
def processLinesTrimFirst : List (List Char) → List Json × Bool
  | [] => ([], false)
  | l :: ls =>
    match lineStepTrimFirst l with
    | .stop => ([], true)
    | .yield c =>
      let r := processLinesTrimFirst ls
      (c :: r.1, r.2)
    | .skip => processLinesTrimFirst ls

/- Concrete wire data used to instantiate the theorems below.
(`\x7b` and `\x7d` are the literal brace characters.) -/

/-- A frame whose delta content is `A`. -/
def frameA : List Char :=
  ("data: \x7b\"choices\":[\x7b\"delta\":\x7b\"content\":\"A\"\x7d\x7d]\x7d").toList

/-- A frame whose delta content is `B`. -/
def frameB : List Char :=
  ("data: \x7b\"choices\":[\x7b\"delta\":\x7b\"content\":\"B\"\x7d\x7d]\x7d").toList

/-- The sentinel frame. -/
def frameDoneLine : List Char := ("data: [DONE]").toList

/-- One chunk holding a content frame, the sentinel, and a further frame. -/
def cDoneChunk : List Char :=
  frameA ++ ('\n' :: frameDoneLine) ++ ('\n' :: frameB)

/-- A frame whose payload is not valid JSON (the spec's example). -/
def badJsonFrame : List Char := ("data: \x7bnot valid json").toList

/-- A well-formed frame preceded by a single space. -/
def spacedFrame : List Char :=
  (" data: \x7b\"choices\":[\x7b\"delta\":\x7b\"content\":\"X\"\x7d\x7d]\x7d").toList

/-- A frame whose delta content is the empty string. -/
def emptyContentFrame : List Char :=
  ("data: \x7b\"choices\":[\x7b\"delta\":\x7b\"content\":\"\"\x7d\x7d]\x7d").toList

/-- The parse of `emptyContentFrame`'s payload. -/
def jEmptyContent : Json :=
  .obj [(("choices").toList,
    .arr [.obj [(("delta").toList, .obj [(("content").toList, .str [])])]])]

/-- A frame whose payload is valid JSON with an empty `choices` array. -/
def emptyChoicesFrame : List Char := ("data: \x7b\"choices\":[]\x7d").toList

/-- The parse of `emptyChoicesFrame`'s payload. -/
def jEmptyChoices : Json := .obj [(("choices").toList, .arr [])]

/-- The serialized form of one well-formed frame carrying `Hello`. -/
def wholeFrame : List Char :=
  ("data: \x7b\"choices\":[\x7b\"delta\":\x7b\"content\":\"Hello\"\x7d\x7d]\x7d\n").toList

/-- The first 24 bytes of `wholeFrame` (a split mid-frame). -/
def splitA : List Char := ("data: \x7b\"choices\":[\x7b\"del").toList

/-- The rest of `wholeFrame` after `splitA`. -/
def splitB : List Char := ("ta\":\x7b\"content\":\"Hello\"\x7d\x7d]\x7d\n").toList

/-- The spec's concrete scenario input, fed as one chunk. -/
def c7chunk : List Char :=
  ("data: \x7b\"choices\":[\x7b\"delta\":\x7b\"content\":\"Hel\"\x7d\x7d]\x7d\n\ndata: \x7b\"choices\":[\x7b\"delta\":\x7b\"content\":\"lo\"\x7d\x7d]\x7d\n\ndata: [DONE]\n").toList

/-- A line the loop body skips contributes nothing: it can be removed from
any position of the line list without changing the decoded result. -/
theorem processLines_skip_middle (l : List Char) (h : lineStep l = .skip)
    (pre post : List (List Char)) :
    processLines (pre ++ l :: post) = processLines (pre ++ post) := by
  induction pre with
  | nil => simp [processLines, h]
  | cons a pre ih =>
    cases ha : lineStep a <;> simp [processLines, ha, ih]

/-- A line the loop body stops on ends the decode: the increments are those
of the preceding lines (provided they did not already stop), the sentinel
flag is set, and everything after the line is ignored. -/
theorem processLines_stop_middle (l : List Char) (h : lineStep l = .stop)
    (pre post : List (List Char)) (hpre : (processLines pre).2 = false) :
    processLines (pre ++ l :: post) = ((processLines pre).1, true) := by
  induction pre with
  | nil => simp [processLines, h]
  | cons a pre ih =>
    cases ha : lineStep a
    case stop => simp [processLines, ha] at hpre
    case yield c =>
      have hpre' : (processLines pre).2 = false := by
        simpa [processLines, ha] using hpre
      simp [processLines, ha, ih hpre']
    case skip =>
      have hpre' : (processLines pre).2 = false := by
        simpa [processLines, ha] using hpre
      simp [processLines, ha, ih hpre']

/-- When the cancellation check reads true, the loop stops at once with the
cancellation outcome, having read nothing further. -/
theorem readLoop_cancelled (cancelAt : Option Nat) (i : Nat)
    (cs : List (List Char)) (e : EndKind)
    (h : isCancelled cancelAt i = true) :
    readLoop cancelAt i cs e = ([], .cancelled) := by
  cases cs <;> simp [readLoop, h]

/-- With no cancellation and a body that fails after its chunks, the loop
decodes every chunk (none reaching the sentinel) and then surfaces the read
failure, keeping all increments decoded before it. -/
theorem readLoop_ioError (m : List Char) (i : Nat) (cs : List (List Char))
    (hs : ∀ c ∈ cs, (processLines (linesOf c)).2 = false) :
    readLoop none i cs (.ioError m)
      = ((cs.map fun c => (processLines (linesOf c)).1).flatten, .readError m) := by
  induction cs generalizing i with
  | nil => simp [readLoop, isCancelled]
  | cons c rest ih =>
    have hc : (processLines (linesOf c)).2 = false := hs c (by simp)
    have hrest : ∀ x ∈ rest, (processLines (linesOf x)).2 = false := by
      intro x hx
      exact hs x (by simp [hx])
    simp [readLoop, isCancelled, hc, ih (i + 1) hrest]

/-- With the token signaled at the `n`-th cancellation check, the loop decodes
exactly the first `n` chunks (none reaching the sentinel) and then stops with
the cancellation outcome. -/
theorem readLoop_cancel (n : Nat) (i : Nat) (cs : List (List Char)) (e : EndKind)
    (hn : n ≤ cs.length)
    (hs : ∀ c ∈ cs.take n, (processLines (linesOf c)).2 = false) :
    readLoop (some (i + n)) i cs e
      = (((cs.take n).map fun c => (processLines (linesOf c)).1).flatten, .cancelled) := by
  induction n generalizing i cs with
  | zero =>
    exact readLoop_cancelled _ _ _ _ (by simp [isCancelled])
  | succ n ih =>
    cases cs with
    | nil => exact absurd hn (by simp)
    | cons c rest =>
      rw [show i + (n + 1) = (i + 1) + n by omega]
      have hcan : isCancelled (some ((i + 1) + n)) i = false := by
        simp [isCancelled]
        omega
      have hc : (processLines (linesOf c)).2 = false := hs c (by simp)
      have hrest : ∀ x ∈ rest.take n, (processLines (linesOf x)).2 = false := by
        intro x hx
        exact hs x (by simp [hx])
      have hrec := ih (i + 1) rest (by simpa using hn) hrest
      simp [readLoop, hcan, hc, hrec]

/-- C1: the claim asserts chunk-boundary invariance of decoding via a
carry-over buffer; the source keeps no carry-over buffer (each chunk is
split and decoded independently), so splitting the serialized stream of one
well-formed frame mid-frame silently drops its increment, while feeding the
same bytes as a single chunk yields it. -/
theorem chunk_split_drops_increment :
    splitA ++ splitB = wholeFrame ∧
    readLoop none 0 [wholeFrame] .closed
      = ([Json.str (("Hello").toList)], .exhausted) ∧
    readLoop none 0 [splitA, splitB] .closed = ([], .exhausted) :=
  ⟨rfl, rfl, rfl⟩

/-- C2: sentinel termination — when a chunk's candidate lines contain the
`data: [DONE]` frame (and the lines before it do not already stop the
stream), the loop returns at that frame: the increments are exactly those of
the preceding lines, the outcome is the clean sentinel end, frames after the
sentinel (even in the same chunk) are not parsed, and no further chunk (nor
the body's end condition) is ever read. -/
theorem sentinel_stops_stream (cancelAt : Option Nat) (i : Nat)
    (c : List Char) (pre post : List (List Char))
    (hc : linesOf c = pre ++ (("data: [DONE]").toList) :: post)
    (hpre : (processLines pre).2 = false)
    (hcan : isCancelled cancelAt i = false)
    (cs cs' : List (List Char)) (e e' : EndKind) :
    readLoop cancelAt i (c :: cs) e = ((processLines pre).1, .sentinel) ∧
    readLoop cancelAt i (c :: cs) e = readLoop cancelAt i (c :: cs') e' := by
  have hstop : lineStep (("data: [DONE]").toList) = .stop := rfl
  have hpl := processLines_stop_middle _ hstop pre post hpre
  have hx : processLines (linesOf c) = ((processLines pre).1, true) := by
    rw [hc]
    exact hpl
  refine ⟨?_, ?_⟩ <;>
  · simp only [readLoop, hcan, hx]
    simp

/-- Witness for C2 at concrete input: a chunk carrying a content frame, the
sentinel, and a trailing frame, followed by another chunk; only the content
before the sentinel is yielded, and the result does not depend on what
follows the sentinel chunk. -/
theorem sentinel_stops_stream_witness :
    readLoop none 0 [cDoneChunk, frameB] .closed
      = ([Json.str (("A").toList)], .sentinel) ∧
    readLoop none 0 [cDoneChunk, frameB] .closed
      = readLoop none 0 [cDoneChunk] (.ioError (("boom").toList)) := by
  have h := sentinel_stops_stream none 0 cDoneChunk [frameA] [frameB]
    rfl rfl rfl [frameB] [] .closed (.ioError (("boom").toList))
  exact ⟨h.1.trans rfl, h.2⟩

/-- C3: a transport I/O failure that surfaces mid-stream (after the delivered
chunks, none of which reached the sentinel) terminates the decode with the
failure outcome: all increments decoded before the failure are kept in order,
the failure is rendered to the sink by the handler (not swallowed), and the
loop performs no retry. -/
theorem midstream_failure_propagates (cs : List (List Char)) (m : List Char)
    (hs : ∀ c ∈ cs, (processLines (linesOf c)).2 = false) :
    readLoop none 0 cs (.ioError m)
      = ((cs.map fun c => (processLines (linesOf c)).1).flatten, .readError m) ∧
    (renderedFailure (.readError m)).isSome = true :=
  ⟨readLoop_ioError m 0 cs hs, rfl⟩

/-- Witness for C3 at concrete input: one healthy chunk, then a read failure;
the chunk's increment is delivered and the failure is the terminal outcome. -/
theorem midstream_failure_propagates_witness :
    readLoop none 0 [frameA] (.ioError (("network error").toList))
      = ([Json.str (("A").toList)], .readError (("network error").toList)) := by
  have h := midstream_failure_propagates [frameA] (("network error").toList)
    (by intro c hc; rw [List.mem_singleton] at hc; subst hc; rfl)
  exact h.1.trans rfl

/-- C4: pre-stream rejection — for any non-success status the call fails with
the connection error carrying that status and status text, the caller sees
zero increments, the body is never read (the result is the same for every
body), and the failure is rendered to the sink. -/
theorem prestream_rejection (status : Nat) (statusText : List Char)
    (body : Option ChunkSource) (cancelAt : Option Nat)
    (h : respOk status = false) :
    streamAIResponse ⟨status, statusText, body⟩ cancelAt
      = ([], .connError status statusText) ∧
    (renderedFailure (.connError status statusText)).isSome = true := by
  refine ⟨?_, rfl⟩
  simp [streamAIResponse, h]

/-- Witness for C4 at concrete input: status 401 with a body present yields
zero increments and `connError 401`. -/
theorem prestream_rejection_witness :
    streamAIResponse ⟨401, ("Unauthorized").toList, some ⟨[frameA], .closed⟩⟩ none
      = ([], .connError 401 (("Unauthorized").toList)) :=
  (prestream_rejection 401 (("Unauthorized").toList)
    (some ⟨[frameA], .closed⟩) none rfl).1

/-- C5: cancellation determinism — the token is checked once per iteration,
before awaiting the next chunk; if it reads true at the `n`-th check (and no
earlier chunk reached the sentinel), the loop yields exactly the increments
of the first `n` chunks, each decoded in full, and stops with the
cancellation outcome; `n = 0` (signaled before any chunk) yields the empty
sequence. -/
theorem cancellation_determinism (n : Nat) (cs : List (List Char)) (e : EndKind)
    (hn : n ≤ cs.length)
    (hs : ∀ c ∈ cs.take n, (processLines (linesOf c)).2 = false) :
    readLoop (some n) 0 cs e
      = (((cs.take n).map fun c => (processLines (linesOf c)).1).flatten,
         .cancelled) := by
  have h := readLoop_cancel n 0 cs e hn hs
  simpa using h

/-- Witness for C5 at concrete input: signaled before any chunk the sequence
is empty; signaled at the check after the first chunk, that chunk's increment
is still yielded. -/
theorem cancellation_determinism_witness :
    readLoop (some 0) 0 [frameA, frameB] .closed = ([], .cancelled) ∧
    readLoop (some 1) 0 [frameA, frameB] .closed
      = ([Json.str (("A").toList)], .cancelled) := by
  constructor
  · exact (cancellation_determinism 0 [frameA, frameB] .closed
      (by simp) (by intro c hc; simp at hc)).trans rfl
  · exact (cancellation_determinism 1 [frameA, frameB] .closed
      (by simp) (by intro c hc; simp at hc; subst hc; rfl)).trans rfl

/-- C6: malformed-frame resilience — a `data: ` frame whose payload is not
valid JSON is discarded without failing: decoding a line list containing it
gives exactly the result of decoding the same list without it (same
increments of the valid frames, in order, same termination flag). -/
theorem malformed_frame_skipped (pre post : List (List Char)) (bad : List Char)
    (h1 : startsWithChars (("data: ").toList) bad = true)
    (h2 : bad.drop 6 ≠ ("[DONE]").toList)
    (h3 : parseJson (bad.drop 6) = none) :
    processLines (pre ++ bad :: post) = processLines (pre ++ post) := by
  have hskip : lineStep bad = .skip := by
    simp only [lineStep, h1, if_true, eq_self_iff_true]
    rw [if_neg h2, h3]
  exact processLines_skip_middle bad hskip pre post

/-- Witness for C6 at the spec's concrete input: the line
`data: {not valid json` between two valid frames yields the two valid
increments only. -/
theorem malformed_frame_skipped_witness :
    processLines [frameA, badJsonFrame, frameB]
      = ([Json.str (("A").toList), Json.str (("B").toList)], false) := by
  have h := malformed_frame_skipped [frameA] [frameB] badJsonFrame
    rfl (by decide) rfl
  exact h.trans rfl

/-- C7: the spec's concrete scenario — the three-frame input decodes to the
increments `Hel`, `lo` and terminates cleanly on the sentinel. -/
theorem concrete_scenario_decodes :
    streamAIResponse ⟨200, ("OK").toList, some ⟨[c7chunk], .closed⟩⟩ none
      = ([Json.str (("Hel").toList), Json.str (("lo").toList)], .sentinel) :=
  rfl

/-- C8 as stated fails on the source: under the claim's trim-then-match
discipline (`processLinesTrimFirst`) a well-formed frame preceded by a single
space qualifies after trimming and yields its increment, but the source
(`processLines`) checks the `data: ` prefix on the untrimmed line — it only
uses the trimmed form to filter out blank lines — so the same frame is
silently dropped. -/
theorem frame_trim_counterexample :
    processLinesTrimFirst [spacedFrame] = ([Json.str (("X").toList)], false) ∧
    processLines [spacedFrame] = ([], false) ∧
    ([Json.str (("X").toList)] : List Json) ≠ [] :=
  ⟨rfl, rfl, fun h => List.noConfusion h⟩

/-- C8 amended: trimming is used only to detect and skip whitespace-only
frames (keep-alive lines) — every candidate frame produced for a chunk is
non-blank — while the `data: ` prefix test (and everything after it) operates
on the untrimmed frame: any frame not literally beginning with `data: `,
including one with leading whitespace before it, is silently skipped with no
increment and no error. -/
theorem frame_filtering_amended :
    (∀ (chunk l : List Char), l ∈ linesOf chunk → trimChars l ≠ []) ∧
    (∀ (pre post : List (List Char)) (l : List Char),
      startsWithChars (("data: ").toList) l = false →
      processLines (pre ++ l :: post) = processLines (pre ++ post)) := by
  constructor
  · intro chunk l hl
    have hp := List.of_mem_filter hl
    intro hnil
    simp [hnil] at hp
  · intro pre post l h
    have hskip : lineStep l = .skip := by
      simp only [lineStep, h]
      simp
    exact processLines_skip_middle l hskip pre post

/-- Witness for C8's amended claim at concrete inputs: a whitespace-only
line never appears among the candidate frames of a chunk, and a comment-style
line without the prefix contributes nothing. -/
theorem frame_filtering_amended_witness :
    ((("   ").toList ∈ linesOf ((" a \n   \n b ").toList) → False) ∧
      processLines [(("event: ping").toList), frameA] = processLines [frameA]) :=
  ⟨fun hmem => frame_filtering_amended.1 _ _ hmem rfl,
   frame_filtering_amended.2 [] [frameA] (("event: ping").toList) rfl⟩

/-- C9: a frame whose parsed delta content is the zero-length string is
suppressed — it emits no increment and does not terminate the stream:
decoding with the frame equals decoding without it. -/
theorem empty_increment_suppressed (pre post : List (List Char))
    (l : List Char) (j : Json)
    (h1 : startsWithChars (("data: ").toList) l = true)
    (h2 : l.drop 6 ≠ ("[DONE]").toList)
    (h3 : parseJson (l.drop 6) = some j)
    (h4 : getContent j = some (Json.str [])) :
    processLines (pre ++ l :: post) = processLines (pre ++ post) := by
  have hskip : lineStep l = .skip := by
    simp only [lineStep, h1, if_true, eq_self_iff_true]
    rw [if_neg h2, h3]
    simp only [h4]
    rfl
  exact processLines_skip_middle l hskip pre post

/-- Witness for C9 at concrete input: a frame with empty content between the
stream and a following valid frame yields only the latter's increment, with
no termination. -/
theorem empty_increment_suppressed_witness :
    processLines [emptyContentFrame, frameB]
      = ([Json.str (("B").toList)], false) := by
  have h := empty_increment_suppressed [] [frameB] emptyContentFrame
    jEmptyContent rfl (by decide) rfl rfl
  exact h.trans rfl

/-- C10: extraction of `choices?.[0]?.delta?.content` is total — for a frame
whose payload is valid JSON on which the extraction comes up empty (missing
`choices`, empty array, missing `delta` or missing `content`), the frame
yields no increment, does not terminate the stream, and decoding continues
with the remaining frames exactly as if the frame were absent. -/
theorem missing_delta_path_total (pre post : List (List Char))
    (l : List Char) (j : Json)
    (h1 : startsWithChars (("data: ").toList) l = true)
    (h2 : l.drop 6 ≠ ("[DONE]").toList)
    (h3 : parseJson (l.drop 6) = some j)
    (h4 : getContent j = none) :
    processLines (pre ++ l :: post) = processLines (pre ++ post) := by
  have hskip : lineStep l = .skip := by
    simp only [lineStep, h1, if_true, eq_self_iff_true]
    rw [if_neg h2, h3]
    simp only [h4]
  exact processLines_skip_middle l hskip pre post

/-- Witness for C10 at concrete input: a frame with an empty `choices` array
before a valid frame yields only the latter's increment and no failure. -/
theorem missing_delta_path_total_witness :
    processLines [emptyChoicesFrame, frameB]
      = ([Json.str (("B").toList)], false) := by
  have h := missing_delta_path_total [] [frameB] emptyChoicesFrame
    jEmptyChoices rfl (by decide) rfl rfl
  exact h.trans rfl
